import Mathlib

/- Shallow embedding of the DLT trace decoder (src/dltp.go, the current
   iteration of the file; the first iteration in the same file is superseded).
   Byte streams are lists of naturals, one per byte; Go slice expressions
   become drop/take; a Go slice access that would panic is modelled by
   Option.none; the warnings the decoder prints to stdout are returned
   explicitly. -/

/-- Reads one byte of a buffer. Out-of-range reads default to 0; every
theorem that depends on a read carries the bound that the Go code enforces
by a bounds check or panic. -/
def readU8 (d : List Nat) (i : Nat) : Nat := d.getD i 0

/-- Little-endian 16-bit read, as binary.LittleEndian.Uint16 in dltp.go. -/
def readLE16 (d : List Nat) (i : Nat) : Nat :=
  readU8 d i + 256 * readU8 d (i + 1)

/-- Big-endian 16-bit read, as binary.BigEndian.Uint16 / binary.Read with
binary.BigEndian in dltp.go. -/
def readBE16 (d : List Nat) (i : Nat) : Nat :=
  256 * readU8 d i + readU8 d (i + 1)

/-- Little-endian 32-bit read, as binary.LittleEndian.Uint32 in dltp.go. -/
def readLE32 (d : List Nat) (i : Nat) : Nat :=
  readU8 d i + 256 * readU8 d (i + 1) + 65536 * readU8 d (i + 2) +
    16777216 * readU8 d (i + 3)

/-- Big-endian 32-bit read, as binary.BigEndian.Uint32 in dltp.go. -/
def readBE32 (d : List Nat) (i : Nat) : Nat :=
  16777216 * readU8 d i + 65536 * readU8 d (i + 1) + 256 * readU8 d (i + 2) +
    readU8 d (i + 3)

/-- The flag test `x & mask != 0` used throughout dltp.go. -/
def bitSet (x m : Nat) : Bool := (x &&& m) != 0

/-- Standard-header flag: use extended header (bit 0 of htyp). -/
def UEH : Nat := 1
/-- Standard-header flag: most significant byte first (bit 1 of htyp). -/
def MSBF : Nat := 2
/-- Standard-header flag: with ECU id (bit 2 of htyp). -/
def WEID : Nat := 4
/-- Standard-header flag: with session id (bit 3 of htyp). -/
def WSID : Nat := 8
/-- Standard-header flag: with timestamp (bit 4 of htyp). -/
def WTMS : Nat := 16
/-- Extended-header flag: verbose (bit 0 of msin). -/
def VERB : Nat := 1
/-- Type-info bit: boolean argument (bit 4). -/
def BOOL : Nat := 16
/-- Type-info bit: signed integer argument (bit 5). -/
def SINT : Nat := 32
/-- Type-info bit: unsigned integer argument (bit 6). -/
def UINT : Nat := 64
/-- Type-info bit: string argument (bit 9). -/
def STRG : Nat := 512
/-- Type-info bit: variable info present (bit 11), unsupported. -/
def VARI : Nat := 2048
/-- Type-info bit: fixed point (bit 12), unsupported. -/
def FIXP : Nat := 4096

/-- StorageHeader of dltp.go. The source stores time.Unix(sec, mic*1000);
the two raw little-endian 32-bit fields are kept here. -/
structure StorageHeader where
  sec : Nat
  mic : Nat
deriving DecidableEq, Repr

/-- StorageHeader.Parse: reads the seconds and microseconds fields at
offsets 4..12 of the 16-byte storage prefix. -/
def StorageHeader.Parse (data : List Nat) : StorageHeader :=
  { sec := readLE32 data 4, mic := readLE32 data 8 }

/-- StandardHeader of dltp.go. `tmsp` keeps the raw big-endian 32-bit
device timestamp (the source scales it by 1e-4 into a float32). -/
structure StandardHeader where
  htyp : Nat
  msbf : Bool
  weid : Bool
  wsid : Bool
  wtms : Bool
  ueh : Bool
  mcnt : Nat
  len : Nat
  tmsp : Nat
  size : Nat
deriving DecidableEq, Repr

/-- StandardHeader.Parse of dltp.go: flag byte, counter, big-endian length,
then the running `size` grows by 4 for each of WEID, WSID, WTMS in that
order; the device timestamp is read at the offset `size` reached after the
two id slots. Go panics on data[0]/data[2:4] when fewer than 4 bytes are
given and on data[size:size+4] when the timestamp read runs past the end;
both are modelled as none. -/
def StandardHeader.Parse (data : List Nat) : Option StandardHeader :=
  if data.length < 4 then none
  else
    let htyp := readU8 data 0
    let weid := bitSet htyp WEID
    let wsid := bitSet htyp WSID
    let wtms := bitSet htyp WTMS
    let size2 := 4 + (if weid then 4 else 0) + (if wsid then 4 else 0)
    if wtms then
      if size2 + 4 ≤ data.length then
        some { htyp := htyp, msbf := bitSet htyp MSBF, weid := weid,
               wsid := wsid, wtms := wtms, ueh := bitSet htyp UEH,
               mcnt := readU8 data 1, len := readBE16 data 2,
               tmsp := readBE32 data size2, size := size2 + 4 }
      else none
    else
      some { htyp := htyp, msbf := bitSet htyp MSBF, weid := weid,
             wsid := wsid, wtms := wtms, ueh := bitSet htyp UEH,
             mcnt := readU8 data 1, len := readBE16 data 2,
             tmsp := 0, size := size2 }

/-- ExtendedHeader of dltp.go. Go strings are immutable byte sequences, so
`apid` and `ctid` are kept as their bytes. -/
structure ExtendedHeader where
  msin : Nat
  verb : Bool
  mstp : Nat
  mtin : Nat
  noar : Nat
  apid : List Nat
  ctid : List Nat
deriving DecidableEq, Repr

/-- ExtendedHeader.Parse of dltp.go: the caller always hands it exactly the
10 bytes data[size:size+10]. The application and context identifiers are
stored raw (string(data[2:6]) and string(data[6:10])), with no trimming. -/
def ExtendedHeader.Parse (data : List Nat) : ExtendedHeader :=
  let msin := readU8 data 0
  { msin := msin
    verb := bitSet msin VERB
    mstp := (msin >>> 1) &&& 3
    mtin := (msin >>> 4) &&& 15
    noar := readU8 data 1
    apid := (data.drop 2).take 4
    ctid := (data.drop 6).take 4 }

/-- The zero value of the Go ExtendedHeader struct (a Message whose UEH
flag is clear keeps this zero value in its eh field). -/
def ehZero : ExtendedHeader :=
  { msin := 0, verb := false, mstp := 0, mtin := 0, noar := 0,
    apid := [], ctid := [] }

/-- bytes.TrimRight(b, "\x00") of dltp.go: drops trailing NUL bytes. -/
def trimRightNul (l : List Nat) : List Nat :=
  (l.reverse.dropWhile (fun b => b == 0)).reverse

/-- strings.Trim(s, "\x00") as used by printMessage in dltp.go: drops NUL
bytes from both ends. -/
def trimNulBoth (l : List Nat) : List Nat :=
  ((l.dropWhile (fun b => b == 0)).reverse.dropWhile (fun b => b == 0)).reverse

/-- The application identifier as printMessage renders it:
strings.Trim(msg.eh.apid, "\x00"). -/
def ExtendedHeader.renderedApid (h : ExtendedHeader) : List Nat :=
  trimNulBoth h.apid

/-- The context identifier as printMessage renders it. -/
def ExtendedHeader.renderedCtid (h : ExtendedHeader) : List Nat :=
  trimNulBoth h.ctid

/-- Lower-case hexadecimal digit, as strconv's lowerhex table. -/
def lowerHexDigit (n : Nat) : Char :=
  if n < 10 then Char.ofNat (48 + n) else Char.ofNat (87 + n)

/-- One byte of strconv.QuoteToGraphic's output, modelled byte-wise:
graphic ASCII is kept (quote and backslash escaped), control bytes get
their named or \xNN escapes, and bytes ≥ 0x7F get \xNN. This is exact for
ASCII and for bytes that are not part of a valid multi-byte UTF-8
sequence; a valid multi-byte UTF-8 graphic rune, which Go would keep
verbatim, is escaped byte-wise here (no claim exercises that case). -/
def escapeByte (b : Nat) : List Char :=
  if b = 34 then ['\\', '"']
  else if b = 92 then ['\\', '\\']
  else if 32 ≤ b ∧ b ≤ 126 then [Char.ofNat b]
  else if b = 7 then ['\\', 'a']
  else if b = 8 then ['\\', 'b']
  else if b = 12 then ['\\', 'f']
  else if b = 10 then ['\\', 'n']
  else if b = 13 then ['\\', 'r']
  else if b = 9 then ['\\', 't']
  else if b = 11 then ['\\', 'v']
  else ['\\', 'x', lowerHexDigit (b / 16 % 16), lowerHexDigit (b % 16)]

/-- strconv.QuoteToGraphic with the surrounding quotes removed, as
parseString of dltp.go produces its result (s[1:len(s)-1]). -/
def quoteToGraphicBytes (bs : List Nat) : String :=
  String.mk (bs.map escapeByte).flatten

/-- The warnings parseArg prints to stdout for the unsupported bits. -/
inductive Warning where
  | vari : Warning
  | fixp : Warning
deriving DecidableEq, Repr

/-- A decoded argument value. `sint`/`uint` carry the placeholder the
source emits; `str` carries the escaped rendering; `raw` is the verbatim
slice returned for an unknown type key; `nonVerbose` is the synthetic
value built from the little-endian message id and the remaining bytes
(the source renders it as the string "<id (len) bytes>"). -/
inductive Arg where
  | boolean : Bool → Arg
  | sint : Int → Arg
  | uint : Nat → Arg
  | str : String → Arg
  | raw : List Nat → Arg
  | nonVerbose : Nat → List Nat → Arg
deriving DecidableEq, Repr

/-- parseBool of dltp.go: one byte, nonzero is true. Go panics on an empty
slice (data[0]); modelled as none. -/
def parseBool (tinfo : Nat) (data : List Nat) : Option (Arg × List Nat) :=
  match data with
  | [] => none
  | b :: rest => some (Arg.boolean (b != 0), rest)

/-- The value-byte count `1 << (tinfo & 0x0F - 1)` of parseSint/parseUint.
Go evaluates (tinfo & 0x0F) - 1 in uint32, so a zero low nibble wraps to
2^32 - 1, and a shift of an int by that many places moves every bit out,
giving length 0. The shift count is k - 1 ≤ 14 for a nibble k ≥ 1. -/
def shiftLen (tinfo : Nat) : Nat :=
  let s := ((tinfo &&& 15) + 4294967295) % 4294967296
  if s < 64 then 1 <<< s else 0

/-- parseSint of dltp.go: skips the computed number of value bytes and
emits the placeholder int32(0). Go panics when data[length:] runs past the
end; modelled as none. -/
def parseSint (tinfo : Nat) (data : List Nat) : Option (Arg × List Nat) :=
  if shiftLen tinfo ≤ data.length then
    some (Arg.sint 0, data.drop (shiftLen tinfo))
  else none

/-- parseUint of dltp.go: same as parseSint with placeholder uint32(0). -/
def parseUint (tinfo : Nat) (data : List Nat) : Option (Arg × List Nat) :=
  if shiftLen tinfo ≤ data.length then
    some (Arg.uint 0, data.drop (shiftLen tinfo))
  else none

/-- parseString of dltp.go: 2-byte little-endian length prefix, that many
content bytes, trailing NULs trimmed, result escaped printably. Go panics
on data[:2] and data[2:2+length] when too few bytes remain; none here. -/
def parseString (tinfo : Nat) (data : List Nat) : Option (Arg × List Nat) :=
  if data.length < 2 then none
  else
    let length := readLE16 data 0
    if 2 + length ≤ data.length then
      some (Arg.str (quoteToGraphicBytes
              (trimRightNul ((data.drop 2).take length))),
            data.drop (2 + length))
    else none

/-- The dispatch key `typeInfo & (BOOL|SINT|UINT|STRG)` of parseArg. -/
def typeKey (ti : Nat) : Nat := ti &&& (BOOL ||| SINT ||| UINT ||| STRG)

/-- The warning lines parseArg prints for the VARI and FIXP bits. -/
def warningsOf (ti : Nat) : List Warning :=
  (if bitSet ti VARI then [Warning.vari] else []) ++
    (if bitSet ti FIXP then [Warning.fixp] else [])

/-- parseArg of dltp.go: reads the 4-byte little-endian type-info (Go
panics below 4 bytes), prints a warning for VARI and for FIXP and keeps
going, then dispatches through the pf map on the single-bit key. A key
with more than one of the four bits set has no map entry, so Go calls a
nil function and panics (none). A zero key returns the whole remaining
slice as the value and consumes nothing (`return data, data`). -/
def parseArg (data : List Nat) : Option (List Warning × Arg × List Nat) :=
  if data.length < 4 then none
  else
    let typeInfo := readLE32 data 0
    let ws := warningsOf typeInfo
    let key := typeKey typeInfo
    if key = BOOL then
      (parseBool typeInfo (data.drop 4)).map (fun ar => (ws, ar))
    else if key = SINT then
      (parseSint typeInfo (data.drop 4)).map (fun ar => (ws, ar))
    else if key = UINT then
      (parseUint typeInfo (data.drop 4)).map (fun ar => (ws, ar))
    else if key = STRG then
      (parseString typeInfo (data.drop 4)).map (fun ar => (ws, ar))
    else if key = 0 then some (ws, Arg.raw data, data)
    else none

/-- The same dispatch as parseArg with the printed warnings left out; used
to state that the VARI/FIXP warnings never change the decoded outcome. -/
def parseArgCore (data : List Nat) : Option (Arg × List Nat) :=
  if data.length < 4 then none
  else
    let typeInfo := readLE32 data 0
    let key := typeKey typeInfo
    if key = BOOL then parseBool typeInfo (data.drop 4)
    else if key = SINT then parseSint typeInfo (data.drop 4)
    else if key = UINT then parseUint typeInfo (data.drop 4)
    else if key = STRG then parseString typeInfo (data.drop 4)
    else if key = 0 then some (Arg.raw data, data)
    else none

/-- The verbose loop of Payload.Parse: decodes exactly `noar` arguments,
threading the remaining bytes, and collects the printed warnings. -/
def parseArgs : Nat → List Nat → Option (List Warning × List Arg)
  | 0, _ => some ([], [])
  | Nat.succ n, d =>
    match parseArg d with
    | none => none
    | some (w, a, rest) =>
      match parseArgs n rest with
      | none => none
      | some (ws, l) => some (w ++ ws, a :: l)

/-- Payload of dltp.go. -/
structure Payload where
  args : List Arg
deriving DecidableEq, Repr

/-- Payload.Parse of dltp.go: a non-verbose payload becomes the single
synthetic value from the 4-byte little-endian message id and the rest of
the bytes (Go panics on data[:4] below 4 bytes); a verbose payload is the
argument loop. -/
def Payload.Parse (verbose : Bool) (noar : Nat) (data : List Nat) :
    Option (List Warning × Payload) :=
  if verbose = false then
    if data.length < 4 then none
    else some ([], { args := [Arg.nonVerbose (readLE32 data 0) (data.drop 4)] })
  else
    (parseArgs noar data).map (fun wl => (wl.1, { args := wl.2 }))

/-- Message of dltp.go: the eh field keeps the Go zero value when the UEH
flag is clear. -/
structure Message where
  st : StorageHeader
  sh : StandardHeader
  eh : ExtendedHeader
  pl : Payload
  verbose : Bool
deriving DecidableEq, Repr

/-- Message.Parse of dltp.go: storage prefix (16 bytes), standard header,
optional extended header at data[size:size+10], then the payload at the
computed offset. verbose = sh.ueh && eh.verb. Every Go slice expression
that can panic carries its bound; warnings go to stdout and are dropped
here (parseArg and parseArgs keep them observable). -/
def Message.Parse (data : List Nat) : Option Message :=
  if data.length < 16 then none
  else
    let st := StorageHeader.Parse (data.take 16)
    let d := data.drop 16
    match StandardHeader.Parse d with
    | none => none
    | some sh =>
      if sh.ueh then
        if sh.size + 10 ≤ d.length then
          let eh := ExtendedHeader.Parse ((d.drop sh.size).take 10)
          let verbose := sh.ueh && eh.verb
          match Payload.Parse verbose eh.noar (d.drop (sh.size + 10)) with
          | none => none
          | some (_, pl) =>
            some { st := st, sh := sh, eh := eh, pl := pl, verbose := verbose }
        else none
      else
        if sh.size ≤ d.length then
          match Payload.Parse false 0 (d.drop sh.size) with
          | none => none
          | some (_, pl) =>
            some { st := st, sh := sh, eh := ehZero, pl := pl, verbose := false }
        else none

/-- The error values a split function can hand to bufio.Scanner here. The
only one the current split produces is bufio.ErrFinalToken. -/
inductive GoErr where
  | finalToken : GoErr
deriving DecidableEq, Repr

/-- The (advance, token, err) triple a bufio.SplitFunc returns. -/
structure SplitOut where
  advance : Nat
  token : Option (List Nat)
  err : Option GoErr
deriving DecidableEq, Repr

/-- The split closure of main in dltp.go: below 20 bytes it asks for more
data; otherwise it reads the big-endian length at offset 18, takes the
frame of 16+mlen bytes when the buffer holds it, asks for more when it
does not, and marks the frame final when it ends exactly at end of buffer
at EOF. (The binary.Read error branch is unreachable: data[18:20] always
holds exactly 2 bytes here.) -/
def split (data : List Nat) (atEOF : Bool) : SplitOut :=
  if data.length < 20 then { advance := 0, token := none, err := none }
  else
    let mlen := readBE16 data 18
    let advance := 16 + mlen
    if data.length < advance then { advance := 0, token := none, err := none }
    else if data.length = advance then
      if atEOF then
        { advance := advance, token := some (data.take advance),
          err := some GoErr.finalToken }
      else { advance := 0, token := none, err := none }
    else
      { advance := advance, token := some (data.take advance), err := none }

/-- The token loop of bufio.Scanner as main drives it, in the state where
the whole input is buffered and EOF has been reached: a token with no
error is emitted and the loop advances; ErrFinalToken emits the token and
ends the scan with scn.Err() = nil; (0, nil, nil) at EOF ends the scan,
also with scn.Err() = nil (io.EOF is suppressed). The boolean is whether
main's final scn.Err() check fires log.Fatal. The fuel only serves
termination; each step consumes at least 16 bytes. -/
def scanTokens : Nat → List Nat → List (List Nat) × Bool
  | 0, _ => ([], false)
  | Nat.succ fuel, data =>
    match split data true with
    | { advance := _, token := some tok, err := some GoErr.finalToken } =>
      ([tok], false)
    | { advance := adv, token := some tok, err := none } =>
      let r := scanTokens fuel (data.drop adv)
      (tok :: r.1, r.2)
    | { advance := _, token := none, err := _ } => ([], false)

/-- One whole run of main's scan loop over a fully buffered input. -/
def scanRun (input : List Nat) : List (List Nat) × Bool :=
  scanTokens (input.length + 1) input

/-- Modelled from the spec: the Filter pipeline stage is absent from src/
(the single-file reference program has no pipeline or allow-list); per the
spec, the message's application identifier, NUL-trimmed as in the data
model, is tested for membership when an extended header is present. -/
def messageApid (msg : Message) : Option (List Nat) :=
  if msg.sh.ueh then some (trimNulBoth msg.eh.apid) else none

/-- Modelled from the spec: the Filter stage forwards a message iff the
allow-list is empty or the message carries an application identifier that
is a member of the allow-list. -/
def filterForward (allow : List (List Nat)) (msg : Message) : Bool :=
  allow.isEmpty ||
    (match messageApid msg with
     | some a => allow.contains a
     | none => false)

/-- A getD read below the take bound sees the original list. -/
theorem getD_take_of_lt {α : Type} (d : α) (l : List α) (n i : Nat)
    (h : i < n) : (l.take n).getD i d = l.getD i d := by
  induction l generalizing n i with
  | nil => simp
  | cons a t ih =>
    cases n with
    | zero => omega
    | succ m =>
      cases i with
      | zero => simp
      | succ j => simpa using ih m j (by omega)

/-- A big-endian 16-bit read strictly below the take bound sees the
original list. -/
theorem readBE16_take (l : List Nat) (n i : Nat) (h : i + 1 < n) :
    readBE16 (l.take n) i = readBE16 l i := by
  unfold readBE16 readU8
  rw [getD_take_of_lt _ _ _ _ (by omega), getD_take_of_lt _ _ _ _ (by omega)]

/-- The head that survives dropWhile fails the predicate. -/
theorem head?_dropWhile_ne {α : Type} (p : α → Bool) (l : List α) (a : α)
    (h : (l.dropWhile p).head? = some a) : p a = false := by
  induction l with
  | nil => simp at h
  | cons x t ih =>
    by_cases hx : p x = true
    · rw [List.dropWhile_cons, if_pos hx] at h
      exact ih h
    · rw [List.dropWhile_cons, if_neg hx] at h
      simp only [List.head?_cons, Option.some.injEq] at h
      subst h
      simpa using hx

/-- C1: every frame the Frame Splitter returns is exactly the prefix of
the buffer of length 16 plus the big-endian 16-bit message length at
offset 18; the splitter never returns a frame of any other (in particular
any shorter) length, and whenever the length field lies inside the frame
(messageLength at least 4) the field read at offset 18 of the frame itself
yields the same value. -/
theorem split_frame_length (data : List Nat) (atEOF : Bool) (tok : List Nat)
    (h : (split data atEOF).token = some tok) :
    tok.length = 16 + readBE16 data 18 ∧
    tok = data.take (16 + readBE16 data 18) ∧
    (split data atEOF).advance = 16 + readBE16 data 18 ∧
    (4 ≤ readBE16 data 18 → readBE16 tok 18 = readBE16 data 18) := by
  have hmain : tok = data.take (16 + readBE16 data 18) ∧
      16 + readBE16 data 18 ≤ data.length ∧
      (split data atEOF).advance = 16 + readBE16 data 18 := by
    simp only [split] at h ⊢
    by_cases h1 : data.length < 20
    · simp [h1] at h
    · simp only [if_neg h1] at h ⊢
      by_cases h2 : data.length < 16 + readBE16 data 18
      · simp [h2] at h
      · simp only [if_neg h2] at h ⊢
        by_cases h3 : data.length = 16 + readBE16 data 18
        · simp only [if_pos h3] at h ⊢
          by_cases h4 : atEOF = true
          · simp only [if_pos h4] at h ⊢
            simp only [Option.some.injEq] at h
            exact ⟨h.symm, by omega, by trivial⟩
          · simp only [if_neg h4] at h
            simp at h
        · simp only [if_neg h3] at h ⊢
          simp only [Option.some.injEq] at h
          exact ⟨h.symm, by omega, by trivial⟩
  obtain ⟨ht, hlen, hadv⟩ := hmain
  subst ht
  refine ⟨by rw [List.length_take, Nat.min_eq_left hlen], rfl, hadv, ?_⟩
  intro hm
  exact readBE16_take _ _ _ (by omega)

/-- C1 witness: a 20-byte buffer whose length field reads 4 is returned
whole as a final frame of length 16 + 4. -/
theorem split_frame_length_witness :
    (split [0, 0, 0, 0, 0, 0, 0, 0, 0, 0, 0, 0, 0, 0, 0, 0, 0, 0, 0, 4]
        true).token =
      some [0, 0, 0, 0, 0, 0, 0, 0, 0, 0, 0, 0, 0, 0, 0, 0, 0, 0, 0, 4] ∧
    ([0, 0, 0, 0, 0, 0, 0, 0, 0, 0, 0, 0, 0, 0, 0, 0, 0, 0, 0, 4] :
        List Nat).length =
      16 + readBE16 [0, 0, 0, 0, 0, 0, 0, 0, 0, 0, 0, 0, 0, 0, 0, 0, 0, 0, 0, 4]
        18 := by
  refine ⟨by decide, ?_⟩
  exact (split_frame_length _ true _ (by decide)).1

/-- C2 counterexample: a complete 20-byte frame followed by a 3-byte
truncated tail. The run emits the complete frame, silently drops the
tail, and the error flag (main's scn.Err() check, which would log.Fatal)
stays false — the claimed fatal framing error never happens. -/
theorem scanRun_truncated_drops_tail :
    scanRun ([0, 0, 0, 0, 0, 0, 0, 0, 0, 0, 0, 0, 0, 0, 0, 0, 0, 0, 0, 4] ++
        [9, 9, 9]) =
      ([[0, 0, 0, 0, 0, 0, 0, 0, 0, 0, 0, 0, 0, 0, 0, 0, 0, 0, 0, 4]],
        false) := by
  decide

/-- C2 (amended): when the stream ends with fewer than 20 bytes buffered,
or with a truncated final frame, the split function at EOF returns zero
advance, no token and no error, and the scanner loop therefore ends the
run normally: no Message is produced from the tail and no error is
reported — the truncated tail is silently dropped, not a fatal error. -/
theorem split_truncated_tail_silent (data : List Nat)
    (h : data.length < 20 ∨ data.length < 16 + readBE16 data 18) :
    split data true = { advance := 0, token := none, err := none } ∧
    (∀ fuel : Nat, scanTokens (fuel + 1) data = ([], false)) := by
  have hs : split data true = { advance := 0, token := none, err := none } := by
    by_cases h20 : data.length < 20
    · simp [split, h20]
    · rcases h with h | h
      · omega
      · simp [split, h20, h]
  refine ⟨hs, fun fuel => ?_⟩
  simp [scanTokens, hs]

/-- C2 witness: a 19-byte stream at EOF is below the 20-byte minimum; the
splitter asks for more data with no error and the scan ends empty. -/
theorem split_truncated_tail_silent_witness :
    split [0, 0, 0, 0, 0, 0, 0, 0, 0, 0, 0, 0, 0, 0, 0, 0, 0, 0, 0] true =
      { advance := 0, token := none, err := none } ∧
    scanTokens 1 [0, 0, 0, 0, 0, 0, 0, 0, 0, 0, 0, 0, 0, 0, 0, 0, 0, 0, 0] =
      ([], false) := by
  have h := split_truncated_tail_silent
    [0, 0, 0, 0, 0, 0, 0, 0, 0, 0, 0, 0, 0, 0, 0, 0, 0, 0, 0]
    (Or.inl (by decide))
  exact ⟨h.1, h.2 0⟩

/-- C3 counterexample: an argument whose type-info sets the fixed-point
bit (0x1010: FIXP together with BOOL) is decoded anyway: parseArg prints
the FIXP warning and still produces the decoded boolean value, consuming
its byte — decoding neither aborts nor withholds a value. -/
theorem parseArg_fixp_produces_value :
    parseArg [16, 16, 0, 0, 1] =
      some ([Warning.fixp], Arg.boolean true, []) := by
  decide

/-- C3 (amended): the variable-info and fixed-point bits are not fatal:
parseArg only prints a warning line for each of them and then decodes the
argument exactly as the warning-free dispatch would — the decoded value
and the consumed bytes are unchanged, for every input. -/
theorem parseArg_warns_and_continues (data : List Nat) :
    parseArg data = (parseArgCore data).map
      (fun ar => (warningsOf (readLE32 data 0), ar)) ∧
    (bitSet (readLE32 data 0) VARI = true →
      Warning.vari ∈ warningsOf (readLE32 data 0)) ∧
    (bitSet (readLE32 data 0) FIXP = true →
      Warning.fixp ∈ warningsOf (readLE32 data 0)) := by
  refine ⟨?_, ?_, ?_⟩
  · simp only [parseArg, parseArgCore]
    split_ifs <;> simp
  · intro hv
    simp [warningsOf, hv]
  · intro hf
    simp [warningsOf, hf]

/-- C3 witness: type-info 0x1810 sets VARI, FIXP and BOOL; both warnings
are emitted and the boolean argument is still decoded. -/
theorem parseArg_warns_and_continues_witness :
    Warning.vari ∈ warningsOf (readLE32 [16, 24, 0, 0, 1] 0) ∧
    Warning.fixp ∈ warningsOf (readLE32 [16, 24, 0, 0, 1] 0) ∧
    parseArg [16, 24, 0, 0, 1] = (parseArgCore [16, 24, 0, 0, 1]).map
      (fun ar => (warningsOf (readLE32 [16, 24, 0, 0, 1] 0), ar)) := by
  have h := parseArg_warns_and_continues [16, 24, 0, 0, 1]
  exact ⟨h.2.1 (by decide), h.2.2 (by decide), h.1⟩

/-- C4: for every parsed standard header, the computed size equals
4 plus 4 for each of the WEID, WSID and WTMS flag bits of the flag byte
that is set, the three flags are decoded from the flag byte, and the
device timestamp — the only optional field the decoder materializes — is
read at the offset reached after the conditionally present ECU-id and
session-id slots, i.e. the optional fields are accounted for in the fixed
order ECU id, session id, device timestamp. -/
theorem standardHeader_size_formula (data : List Nat) (sh : StandardHeader)
    (h : StandardHeader.Parse data = some sh) :
    sh.size = 4 + (if sh.weid then 4 else 0) + (if sh.wsid then 4 else 0) +
      (if sh.wtms then 4 else 0) ∧
    sh.weid = bitSet (readU8 data 0) WEID ∧
    sh.wsid = bitSet (readU8 data 0) WSID ∧
    sh.wtms = bitSet (readU8 data 0) WTMS ∧
    sh.ueh = bitSet (readU8 data 0) UEH ∧
    (sh.wtms = true → sh.tmsp = readBE32 data
      (4 + (if sh.weid then 4 else 0) + (if sh.wsid then 4 else 0))) := by
  simp only [StandardHeader.Parse] at h
  split_ifs at h <;> try exact Option.noConfusion h
  all_goals obtain rfl := Option.some.inj h
  all_goals refine ⟨?_, rfl, rfl, rfl, rfl, fun hc => ?_⟩ <;> simp_all

/-- C4 witness: flag byte 0x1C sets WEID, WSID and WTMS, giving
headerSize 4 + 4 + 4 + 4 = 16. -/
theorem standardHeader_size_formula_witness :
    StandardHeader.Parse [28, 1, 0, 8, 0, 0, 0, 0, 0, 0, 0, 0, 0, 0, 0, 0] =
      some { htyp := 28, msbf := false, weid := true, wsid := true,
             wtms := true, ueh := false, mcnt := 1, len := 8,
             tmsp := 0, size := 16 } ∧
    ({ htyp := 28, msbf := false, weid := true, wsid := true,
        wtms := true, ueh := false, mcnt := 1, len := 8,
        tmsp := 0, size := 16 } : StandardHeader).size = 16 := by
  have h := standardHeader_size_formula
    [28, 1, 0, 8, 0, 0, 0, 0, 0, 0, 0, 0, 0, 0, 0, 0]
    { htyp := 28, msbf := false, weid := true, wsid := true,
      wtms := true, ueh := false, mcnt := 1, len := 8,
      tmsp := 0, size := 16 } (by decide)
  exact ⟨by decide, h.1.trans (by decide)⟩

/-- C6 counterexample: a signed-integer type-info whose low 4 bits are 0
(type-info 32 = bare SINT bit). The claimed byte count 2^((ti & 0xF) - 1)
reads as 2^0 = 1 over the naturals, but the decoder consumes 0 bytes:
the uint32 subtraction wraps to 2^32 - 1 and Go's oversized shift yields
length 0, so the rest equals the input, not the input minus one byte. -/
theorem parseSint_zero_nibble :
    parseSint 32 [9, 9] = some (Arg.sint 0, [9, 9]) ∧
    [9, 9] ≠ List.drop (2 ^ ((32 &&& 15) - 1)) [9, 9] := by
  decide

/-- The Go length expression 1 << (tinfo & 0x0F - 1) equals 2^(nibble-1)
whenever the low nibble is at least 1. -/
theorem shiftLen_of_pos (ti : Nat) (h1 : 1 ≤ ti &&& 15) :
    shiftLen ti = 2 ^ ((ti &&& 15) - 1) := by
  have hk : ti &&& 15 ≤ 15 := Nat.and_le_right
  simp only [shiftLen]
  have hmod : ((ti &&& 15) + 4294967295) % 4294967296 = (ti &&& 15) - 1 := by
    omega
  rw [hmod, if_pos (by omega), Nat.shiftLeft_eq, one_mul]

/-- C6 (amended): for every signed- or unsigned-integer argument whose
type-info low nibble is at least 1 and with enough bytes, the decoder
consumes exactly 2^((typeinfo & 0xF) - 1) value bytes and emits the
placeholder zero, never the numeric value of those bytes; when the low
nibble is 0 the uint32 underflow makes the consumed count 0 instead of
the formula's value (see the counterexample). -/
theorem parseIntArgs_spec (ti : Nat) (d : List Nat)
    (h1 : 1 ≤ ti &&& 15) (h2 : 2 ^ ((ti &&& 15) - 1) ≤ d.length) :
    parseSint ti d = some (Arg.sint 0, d.drop (2 ^ ((ti &&& 15) - 1))) ∧
    parseUint ti d = some (Arg.uint 0, d.drop (2 ^ ((ti &&& 15) - 1))) ∧
    (d.drop (2 ^ ((ti &&& 15) - 1))).length =
      d.length - 2 ^ ((ti &&& 15) - 1) := by
  have hs := shiftLen_of_pos ti h1
  refine ⟨?_, ?_, by simp⟩
  · simp [parseSint, hs, h2]
  · simp [parseUint, hs, h2]

/-- C6 witness: type-info 66 (UINT bit, length class 2) consumes exactly
2 bytes and emits the placeholder zero for both integer parsers. -/
theorem parseIntArgs_spec_witness :
    parseSint 66 [5, 6] = some (Arg.sint 0, []) ∧
    parseUint 66 [5, 6] = some (Arg.uint 0, []) := by
  have h := parseIntArgs_spec 66 [5, 6] (by decide) (by decide)
  exact ⟨h.1.trans (by decide), h.2.1.trans (by decide)⟩

/-- A successful non-verbose Payload.Parse yields exactly the synthetic
value of the little-endian message id and the remaining bytes. -/
theorem payload_nonverbose (noar : Nat) (data : List Nat) (w : List Warning)
    (pl : Payload) (h : Payload.Parse false noar data = some (w, pl)) :
    pl.args = [Arg.nonVerbose (readLE32 data 0) (data.drop 4)] ∧ w = [] := by
  simp only [Payload.Parse, if_pos rfl] at h
  by_cases h4 : data.length < 4
  · rw [if_pos h4] at h
    exact Option.noConfusion h
  · rw [if_neg h4] at h
    have h' := Option.some.inj h
    injection h' with hw hpl
    subst hw
    rw [← hpl]
    exact ⟨rfl, rfl⟩

/-- A successful verbose Payload.Parse is exactly the argument loop. -/
theorem payload_verbose (noar : Nat) (data : List Nat) (w : List Warning)
    (pl : Payload) (h : Payload.Parse true noar data = some (w, pl)) :
    parseArgs noar data = some (w, pl.args) := by
  simp only [Payload.Parse] at h
  rw [if_neg (by simp)] at h
  cases hp : parseArgs noar data with
  | none => rw [hp] at h; exact Option.noConfusion h
  | some wl =>
    rw [hp] at h
    simp only [Option.map_some'] at h
    have h' := Option.some.inj h
    injection h' with hw hpl
    subst hw
    rw [← hpl]

/-- C5: a decoded message is verbose exactly when the extended header is
present and its verbose bit is set (without an extended header the stored
zero value has verb = false); a non-verbose payload is always the single
synthetic value of the 4-byte little-endian message id and the remaining
raw payload bytes; a verbose payload is the argument-sequence loop. -/
theorem message_verbose_and_nonverbose (data : List Nat) (msg : Message)
    (h : Message.Parse data = some msg) :
    msg.verbose = (msg.sh.ueh && msg.eh.verb) ∧
    (msg.verbose = false →
      msg.pl.args = [Arg.nonVerbose
        (readLE32 ((data.drop 16).drop
          (msg.sh.size + if msg.sh.ueh then 10 else 0)) 0)
        (((data.drop 16).drop
          (msg.sh.size + if msg.sh.ueh then 10 else 0)).drop 4)]) ∧
    (msg.verbose = true →
      msg.sh.ueh = true ∧
      ∃ ws, parseArgs msg.eh.noar
        ((data.drop 16).drop (msg.sh.size + 10)) = some (ws, msg.pl.args)) := by
  simp only [Message.Parse] at h
  by_cases h16 : data.length < 16
  · rw [if_pos h16] at h
    exact Option.noConfusion h
  rw [if_neg h16] at h
  split at h
  · exact Option.noConfusion h
  rename_i sh hsh
  by_cases hueh : sh.ueh = true
  · rw [if_pos hueh] at h
    by_cases hb : sh.size + 10 ≤ (data.drop 16).length
    · rw [if_pos hb] at h
      split at h
      · exact Option.noConfusion h
      rename_i w pl hp
      obtain rfl := Option.some.inj h
      dsimp only
      refine ⟨rfl, ?_, ?_⟩
      · intro hv
        rw [if_pos hueh]
        rw [hv] at hp
        exact (payload_nonverbose _ _ _ _ hp).1
      · intro hv
        rw [hv] at hp
        exact ⟨hueh, w, payload_verbose _ _ _ _ hp⟩
    · rw [if_neg hb] at h
      exact Option.noConfusion h
  · rw [if_neg hueh] at h
    by_cases hb : sh.size ≤ (data.drop 16).length
    · rw [if_pos hb] at h
      split at h
      · exact Option.noConfusion h
      rename_i w pl hp
      obtain rfl := Option.some.inj h
      have huf : sh.ueh = false := by simpa using hueh
      dsimp only
      refine ⟨by simp [huf, ehZero], ?_, ?_⟩
      · intro _
        rw [if_neg hueh, Nat.add_zero]
        exact (payload_nonverbose _ _ _ _ hp).1
      · intro hv
        exact Bool.noConfusion hv
    · rw [if_neg hb] at h
      exact Option.noConfusion h

/-- C5 witness: a frame with no extended header and payload bytes
42 00 00 00 01 02 decodes as non-verbose with the synthetic value of
id 42, and the two raw bytes [1, 2] (so length 2). -/
theorem message_verbose_and_nonverbose_witness :
    Message.Parse [0, 0, 0, 0, 0, 0, 0, 0, 0, 0, 0, 0, 0, 0, 0, 0,
        0, 7, 0, 10, 42, 0, 0, 0, 1, 2] =
      some { st := { sec := 0, mic := 0 },
             sh := { htyp := 0, msbf := false, weid := false, wsid := false,
                     wtms := false, ueh := false, mcnt := 7, len := 10,
                     tmsp := 0, size := 4 },
             eh := ehZero,
             pl := { args := [Arg.nonVerbose 42 [1, 2]] },
             verbose := false } ∧
    ({ st := { sec := 0, mic := 0 },
       sh := { htyp := 0, msbf := false, weid := false, wsid := false,
               wtms := false, ueh := false, mcnt := 7, len := 10,
               tmsp := 0, size := 4 },
       eh := ehZero,
       pl := { args := [Arg.nonVerbose 42 [1, 2]] },
       verbose := false } : Message).pl.args =
      [Arg.nonVerbose 42 [1, 2]] := by
  have h := message_verbose_and_nonverbose
    [0, 0, 0, 0, 0, 0, 0, 0, 0, 0, 0, 0, 0, 0, 0, 0,
      0, 7, 0, 10, 42, 0, 0, 0, 1, 2]
    { st := { sec := 0, mic := 0 },
      sh := { htyp := 0, msbf := false, weid := false, wsid := false,
              wtms := false, ueh := false, mcnt := 7, len := 10,
              tmsp := 0, size := 4 },
      eh := ehZero,
      pl := { args := [Arg.nonVerbose 42 [1, 2]] },
      verbose := false } (by decide)
  exact ⟨by decide, (h.2.1 rfl).trans (by decide)⟩

/-- The trailing-NUL trim never leaves a NUL as last element. -/
theorem trimRightNul_getLast (l : List Nat) (a : Nat)
    (h : (trimRightNul l).getLast? = some a) : a ≠ 0 := by
  unfold trimRightNul at h
  rw [List.getLast?_reverse] at h
  have hb := head?_dropWhile_ne _ _ _ h
  simpa using hb

/-- C7: for every string argument with enough bytes, the decoder consumes
exactly the 2-byte little-endian length prefix plus that many content
bytes, the value is the printable escape of the content with trailing NUL
bytes trimmed, and the trimmed content never ends in a NUL byte. -/
theorem parseString_spec (ti : Nat) (d : List Nat)
    (h2 : 2 ≤ d.length) (hl : 2 + readLE16 d 0 ≤ d.length) :
    parseString ti d = some (Arg.str (quoteToGraphicBytes
        (trimRightNul ((d.drop 2).take (readLE16 d 0)))),
      d.drop (2 + readLE16 d 0)) ∧
    (d.drop (2 + readLE16 d 0)).length = d.length - (2 + readLE16 d 0) ∧
    ∀ a, (trimRightNul ((d.drop 2).take (readLE16 d 0))).getLast? = some a →
      a ≠ 0 := by
  refine ⟨?_, by simp, fun a ha => trimRightNul_getLast _ _ ha⟩
  have h2' : ¬ d.length < 2 := by omega
  simp [parseString, h2', hl]

/-- C7 witness: type-info with the string bit, length prefix 3 and bytes
"abc" decodes to the string "abc" and consumes all five bytes. -/
theorem parseString_spec_witness :
    parseString 512 [3, 0, 97, 98, 99] = some (Arg.str "abc", []) := by
  have h := (parseString_spec 512 [3, 0, 97, 98, 99]
    (by decide) (by decide)).1
  exact h.trans (by decide)

/-- C8 counterexample: the decoded ExtendedHeader stores the raw 4-byte
application identifier including its NUL padding ("AB\x00\x00" stays
[65, 66, 0, 0]), not the claimed trailing-NUL-trimmed [65, 66]. -/
theorem extendedHeader_apid_untrimmed :
    (ExtendedHeader.Parse [1, 2, 65, 66, 0, 0, 67, 84, 88, 0]).apid =
      [65, 66, 0, 0] ∧
    ([65, 66, 0, 0] : List Nat) ≠ [65, 66] := by
  decide

/-- The both-ends NUL trim never leaves a NUL as last element. -/
theorem trimNulBoth_getLast (l : List Nat) (a : Nat)
    (h : (trimNulBoth l).getLast? = some a) : a ≠ 0 := by
  unfold trimNulBoth at h
  rw [List.getLast?_reverse] at h
  have hb := head?_dropWhile_ne _ _ _ h
  simpa using hb

/-- The both-ends NUL trim never leaves a NUL as first element. -/
theorem trimNulBoth_head (l : List Nat) (a : Nat)
    (h : (trimNulBoth l).head? = some a) : a ≠ 0 := by
  unfold trimNulBoth at h
  rw [List.head?_reverse] at h
  have hne : (l.dropWhile (fun b => b == 0)).reverse.dropWhile
      (fun b => b == 0) ≠ [] := by
    intro hE
    rw [hE] at h
    exact Option.noConfusion h
  obtain ⟨pre, hpre⟩ :=
    List.dropWhile_suffix (l := (l.dropWhile (fun b => b == 0)).reverse)
      (fun b => b == 0)
  have hrev : (l.dropWhile (fun b => b == 0)).reverse.getLast? = some a := by
    rw [← hpre, List.getLast?_append_of_ne_nil _ hne]
    exact h
  rw [List.getLast?_reverse] at hrev
  have hb := head?_dropWhile_ne _ _ _ hrev
  simpa using hb

/-- C8 (amended): ExtendedHeader.Parse stores the application and context
identifiers as the raw 4-byte fields, NUL padding included; the NUL
padding is removed only when printMessage renders them, and it is removed
from both ends (strings.Trim), so the rendered identifiers never start or
end with a NUL byte. -/
theorem extendedHeader_ids_raw_render_trimmed (data : List Nat) :
    (ExtendedHeader.Parse data).apid = (data.drop 2).take 4 ∧
    (ExtendedHeader.Parse data).ctid = (data.drop 6).take 4 ∧
    (ExtendedHeader.Parse data).renderedApid =
      trimNulBoth ((data.drop 2).take 4) ∧
    (ExtendedHeader.Parse data).renderedCtid =
      trimNulBoth ((data.drop 6).take 4) ∧
    (∀ a, ((ExtendedHeader.Parse data).renderedApid).head? = some a →
      a ≠ 0) ∧
    (∀ a, ((ExtendedHeader.Parse data).renderedApid).getLast? = some a →
      a ≠ 0) := by
  refine ⟨rfl, rfl, rfl, rfl, ?_, ?_⟩
  · intro a ha
    exact trimNulBoth_head _ _ ha
  · intro a ha
    exact trimNulBoth_getLast _ _ ha

/-- C8 witness: identifier bytes 00 41 50 50 ("\x00APP") render as
[65, 80, 80] — the leading NUL is removed as well, while the stored
field keeps it. -/
theorem extendedHeader_ids_raw_render_trimmed_witness :
    (ExtendedHeader.Parse [1, 2, 0, 65, 80, 80, 49, 0, 0, 0]).apid =
      [0, 65, 80, 80] ∧
    (ExtendedHeader.Parse [1, 2, 0, 65, 80, 80, 49, 0, 0, 0]).renderedApid =
      [65, 80, 80] := by
  have h := extendedHeader_ids_raw_render_trimmed
    [1, 2, 0, 65, 80, 80, 49, 0, 0, 0]
  exact ⟨h.1.trans (by decide), h.2.2.1.trans (by decide)⟩

/-- C9 (spec-modelled): the filter forwards a message exactly when the
allow-list is empty, or the message has an extended header whose
NUL-trimmed application identifier is a member of the allow-list; with a
non-empty allow-list a message without an extended header is never
forwarded. -/
theorem filterForward_spec (allow : List (List Nat)) (msg : Message) :
    (filterForward allow msg = true ↔
      (allow = [] ∨ (msg.sh.ueh = true ∧ trimNulBoth msg.eh.apid ∈ allow))) ∧
    (allow ≠ [] → msg.sh.ueh = false → filterForward allow msg = false) := by
  constructor
  · unfold filterForward messageApid
    by_cases hu : msg.sh.ueh = true
    · rw [if_pos hu]
      simp [hu]
    · rw [if_neg hu]
      simp [hu]
  · intro hne hu
    simp [filterForward, messageApid, hu, hne]

/-- C9 witness: with allow-list {"APP1"} a message whose application
identifier is APP1 passes and a message without an extended header is
dropped. -/
theorem filterForward_spec_witness :
    filterForward [[65, 80, 80, 49]]
      { st := { sec := 0, mic := 0 },
        sh := { htyp := 1, msbf := false, weid := false, wsid := false,
                wtms := false, ueh := true, mcnt := 0, len := 0,
                tmsp := 0, size := 4 },
        eh := { msin := 1, verb := true, mstp := 0, mtin := 0, noar := 0,
                apid := [65, 80, 80, 49], ctid := [] },
        pl := { args := [] }, verbose := true } = true ∧
    filterForward [[65, 80, 80, 49]]
      { st := { sec := 0, mic := 0 },
        sh := { htyp := 0, msbf := false, weid := false, wsid := false,
                wtms := false, ueh := false, mcnt := 0, len := 0,
                tmsp := 0, size := 4 },
        eh := ehZero, pl := { args := [] }, verbose := false } = false := by
  constructor
  · exact (filterForward_spec [[65, 80, 80, 49]] _).1.mpr
      (Or.inr ⟨rfl, by decide⟩)
  · exact (filterForward_spec [[65, 80, 80, 49]] _).2 (by decide) rfl

/-- C10: when the 4-byte type-info has none of the four known type bits,
parseArg returns the entire remaining slice (type-info bytes included) as
the argument value and consumes zero bytes, so every later argument of
the same payload is decoded from the identical byte region: the whole
remaining argument loop yields n copies of that same raw slice. -/
theorem parseArg_unknown_type (d : List Nat) (n : Nat)
    (h4 : 4 ≤ d.length) (hk : typeKey (readLE32 d 0) = 0) :
    parseArg d = some (warningsOf (readLE32 d 0), Arg.raw d, d) ∧
    (parseArgs n d).map (fun x => x.2) =
      some (List.replicate n (Arg.raw d)) := by
  have hlen : ¬ d.length < 4 := by omega
  have h1 : parseArg d = some (warningsOf (readLE32 d 0), Arg.raw d, d) := by
    simp [parseArg, hlen, hk, BOOL, SINT, UINT, STRG]
  refine ⟨h1, ?_⟩
  induction n with
  | zero => simp [parseArgs]
  | succ m ih =>
    cases hp : parseArgs m d with
    | none =>
      rw [hp] at ih
      simp at ih
    | some wl =>
      obtain ⟨ws, l⟩ := wl
      rw [hp] at ih
      simp only [Option.map_some'] at ih
      have h2 := Option.some.inj ih
      have hstep : parseArgs (m + 1) d =
          some (warningsOf (readLE32 d 0) ++ ws, Arg.raw d :: l) := by
        simp only [parseArgs, h1, hp]
      rw [hstep]
      simp only [Option.map_some', List.replicate_succ, Option.some.injEq]
      rw [h2]

/-- C10 witness: type-info 0 has no known type bit; two arguments decoded
from the 4-byte region [0,0,0,0] are both that same whole region. -/
theorem parseArg_unknown_type_witness :
    parseArg [0, 0, 0, 0] = some ([], Arg.raw [0, 0, 0, 0], [0, 0, 0, 0]) ∧
    (parseArgs 2 [0, 0, 0, 0]).map (fun x => x.2) =
      some [Arg.raw [0, 0, 0, 0], Arg.raw [0, 0, 0, 0]] := by
  have h := parseArg_unknown_type [0, 0, 0, 0] 2 (by decide) (by decide)
  exact ⟨h.1.trans (by decide), h.2.trans (by decide)⟩
